import Mathlib

/-!
Shallow embedding of `crates/oxc_transformer/src/helpers/module_imports.rs`
(the synthetic-import registry of the oxc transformer).

Modelling choices:
* `Atom` (interned string) is modelled as `String`, `SymbolId` as `Nat`.
* The `IndexMap<ImportType, Vec<ImportSpecifier>>` inside the `RefCell` is
  modelled as an ordered association list `List (ImportType × List ImportSpecifier)`;
  the `IndexMap` entry API looks a key up with the overridden `PartialEq`
  (`eqKey` below) and otherwise appends at the end, which is exactly what the
  association-list operations `entryOrInsert` / `entryPush` do.
* `IndexMap::move_index` panics when an index is out of bounds; panics are
  modelled by `Option` (`none` = panic), as is the `unwrap` in `get_require`.
* The AST statements produced by the three synthesizers are modelled by the
  inductive `Stmt`, keeping exactly the data the source feeds into the AST
  builder calls (names, symbol ids, source string).
-/

/-- Field-for-field model of struct `ImportSpecifier` (lines 11-15): one
requested binding. `localName` is the source's `local` field (a Lean keyword);
the source comments that it is not used by `require`. -/
structure ImportSpecifier where
  imported : String
  localName : Option String
  symbol_id : Nat
deriving DecidableEq, Repr

/-- Model of enum `ImportKind` (lines 23-28). -/
inductive ImportKind where
  | Import
  | ImportDefault
  | Require
deriving DecidableEq, Repr

/-- Model of struct `ImportType` (lines 30-34): mechanism plus source module. -/
structure ImportType where
  kind : ImportKind
  source : String
deriving DecidableEq, Repr

/-- The overridden `PartialEq for ImportType` (lines 36-44): a key whose kind
is `ImportDefault` compares unequal to everything (its own source included);
otherwise both kind and source must match. -/
def eqKey (a b : ImportType) : Bool :=
  if a.kind = ImportKind.ImportDefault then false
  else if a.kind = b.kind ∧ a.source = b.source then true else false

/-- The registry state: the contents of the `RefCell<IndexMap<...>>` field of
struct `ModuleImports` (line 57), in insertion order. -/
abbrev ModuleImports := List (ImportType × List ImportSpecifier)

/-- `IndexMap` `entry(k).or_insert(v)`: keep an existing entry whose key equals
`k` (under `eqKey`) untouched, otherwise append `(k, v)` at the end. Used by
`add_default` (lines 66-71). -/
def entryOrInsert (m : ModuleImports) (k : ImportType) (v : List ImportSpecifier) :
    ModuleImports :=
  match m with
  | [] => [(k, v)]
  | e :: rest => if eqKey k e.1 then e :: rest else e :: entryOrInsert rest k v

/-- `IndexMap` `entry(k).or_default().push(s)`: append `s` to the specifier
list of the first entry whose key equals `k` (under `eqKey`), or append a
fresh entry `(k, [s])` at the end. Used by `add_import` and `add_require`. -/
def entryPush (m : ModuleImports) (k : ImportType) (s : ImportSpecifier) :
    ModuleImports :=
  match m with
  | [] => [(k, [s])]
  | e :: rest =>
    if eqKey k e.1 then (e.1, e.2 ++ [s]) :: rest else e :: entryPush rest k s

/-- Insert `x` so that it ends up at index `j` (clamped to the end). Helper
for `moveIndex`. -/
def insertAt : List α → Nat → α → List α
  | l, 0, x => x :: l
  | [], _ + 1, x => [x]
  | y :: ys, j + 1, x => y :: insertAt ys j x

/-- `IndexMap::move_index(i, j)` (used at line 91): move the entry at index
`i` to index `j`, shifting the entries in between and preserving the relative
order of all others; panics (modelled as `none`) when an index is out of
bounds. -/
def moveIndex (m : ModuleImports) (i j : Nat) : Option ModuleImports :=
  if i < m.length ∧ j < m.length then
    match m.get? i with
    | some e => some (insertAt (m.eraseIdx i) j e)
    | none => none
  else none

/-- `ModuleImports::add_default` (lines 66-71):
`entry(ImportType::new(ImportDefault, source)).or_insert(vec![sp])`. -/
def add_default (m : ModuleImports) (source : String) (sp : ImportSpecifier) :
    ModuleImports :=
  entryOrInsert m ⟨ImportKind.ImportDefault, source⟩ [sp]

/-- `ModuleImports::add_import` (lines 74-80):
`entry(ImportType::new(Import, source)).or_default().push(sp)`. -/
def add_import (m : ModuleImports) (source : String) (sp : ImportSpecifier) :
    ModuleImports :=
  entryPush m ⟨ImportKind.Import, source⟩ sp

/-- `ModuleImports::add_require` (lines 83-93): the length is captured BEFORE
the insertion (`let len = self.imports.borrow().len()`), then the entry is
pushed, then when `front` is true `move_index(len, 0)` is called with that
stale length. -/
def add_require (m : ModuleImports) (source : String) (sp : ImportSpecifier)
    (front : Bool) : Option ModuleImports :=
  let len := m.length
  let m2 := entryPush m ⟨ImportKind.Require, source⟩ sp
  if front then moveIndex m2 len 0 else some m2

/-- One specifier clause of a synthesized named-import statement: the name as
written in the source module, the local binding name, and the symbol id the
binding carries. -/
structure SpecifierClause where
  imported : String
  localName : String
  symbol_id : Nat
deriving DecidableEq, Repr

/-- The statements the three synthesizers can produce, keeping the data the
source feeds into the AST builder. `requireVarDecl binding symbol_id source`
stands for `var <binding> = require(<source>)` with the declared variable
carrying `symbol_id` (the callee is the ambient root `require` binding, an
external lookup not owned by this module). -/
inductive Stmt where
  | namedImport (source : String) (specifiers : List SpecifierClause)
  | defaultImport (source : String) (specifiers : List (String × Nat))
  | requireVarDecl (binding : String) (symbol_id : Nat) (source : String)
deriving DecidableEq, Repr

/-- `ModuleImports::get_named_import` (lines 105-127): one statement with one
clause per record; the local binding name is `local.unwrap_or(imported)`. -/
def get_named_import (source : String) (names : List ImportSpecifier) : Stmt :=
  Stmt.namedImport source
    (names.map fun n => ⟨n.imported, n.localName.getD n.imported, n.symbol_id⟩)

/-- `ModuleImports::get_default_import` (lines 129-150): one statement with
one default specifier per record, binding the record's `imported` name. -/
def get_default_import (source : String) (names : List ImportSpecifier) : Stmt :=
  Stmt.defaultImport source (names.map fun n => (n.imported, n.symbol_id))

/-- `ModuleImports::get_require` (lines 152-184):
`names.into_iter().next().unwrap()` takes the first record only (`none` models
the unwrap panic on an empty list); the declared variable uses that record's
`imported` name and `symbol_id`; `localName` and all later records are unused. -/
def get_require (source : String) (names : List ImportSpecifier) : Option Stmt :=
  match names with
  | [] => none
  | n :: _ => some (Stmt.requireVarDecl n.imported n.symbol_id source)

/-- The per-entry dispatch inside `get_import_statements` (lines 97-101). -/
def synthesize (e : ImportType × List ImportSpecifier) : Option Stmt :=
  match e.1.kind with
  | ImportKind.Import => some (get_named_import e.1.source e.2)
  | ImportKind.Require => get_require e.1.source e.2
  | ImportKind.ImportDefault => some (get_default_import e.1.source e.2)

/-- Synthesize every drained entry front to back (`drain(..).map(...)` at
line 96); `none` when any entry makes its synthesizer panic. -/
def synthAll : ModuleImports → Option (List Stmt)
  | [] => some []
  | e :: rest =>
    match synthesize e, synthAll rest with
    | some s, some ss => some (s :: ss)
    | _, _ => none

/-- `ModuleImports::get_import_statements` (lines 95-103): drain the whole map
in order and synthesize one statement per entry. The pair is (the returned
statements, the registry contents after the call): `drain(..)` always leaves
the map empty. -/
def get_import_statements (m : ModuleImports) : Option (List Stmt) × ModuleImports :=
  (synthAll m, [])

/-- One call to a mutation entry point of the registry. -/
inductive AddOp where
  | addDefault (source : String) (sp : ImportSpecifier)
  | addImport (source : String) (sp : ImportSpecifier)
  | addRequire (source : String) (sp : ImportSpecifier) (front : Bool)
deriving DecidableEq, Repr

/-- Apply one mutation to a registry state (`none` = the call panics). -/
def applyOp (m : ModuleImports) : AddOp → Option ModuleImports
  | AddOp.addDefault s sp => some (add_default m s sp)
  | AddOp.addImport s sp => some (add_import m s sp)
  | AddOp.addRequire s sp f => add_require m s sp f

/-- Run a sequence of mutations left to right. -/
def runOps : ModuleImports → List AddOp → Option ModuleImports
  | m, [] => some m
  | m, op :: ops =>
    match applyOp m op with
    | some m2 => runOps m2 ops
    | none => none

/-- The key an operation inserts under. -/
def keyOf : AddOp → ImportType
  | AddOp.addDefault s _ => ⟨ImportKind.ImportDefault, s⟩
  | AddOp.addImport s _ => ⟨ImportKind.Import, s⟩
  | AddOp.addRequire s _ _ => ⟨ImportKind.Require, s⟩

/-- Whether some entry of the registry has a key equal (under `eqKey`) to `k`. -/
def containsKey (m : ModuleImports) (k : ImportType) : Bool :=
  m.any fun e => eqKey k e.1

/-- Index of the first entry whose key equals `k` under `eqKey`, if any: the
entry the `IndexMap` entry API would find. -/
def firstMatch : ModuleImports → ImportType → Option Nat
  | [], _ => none
  | e :: rest, k =>
    if eqKey k e.1 then some 0 else (firstMatch rest k).map (· + 1)

/-- Spec-side key matching, transcribed from the spec (section 3): two keys
denote the same registry entry only when neither mechanism is DefaultImport
and both mechanism and source match (a DefaultImport key matches nothing,
its own source included). -/
def specSameEntry (a b : ImportType) : Bool :=
  decide (a.kind ≠ ImportKind.ImportDefault ∧ a.kind = b.kind ∧ a.source = b.source)

/-- Spec-side effect of one add operation on the entry-key order, transcribed
from the spec (sections 3 and 4.1): a key already present leaves the order
unchanged; a new key is appended at the end, except that a require add with
moveToFront true places its new key at index 0, ahead of all earlier keys.
(A front require on an already-present key panics in the code -- claim C3 --
so runs reaching that case are excluded by the success hypotheses below.) -/
def specStep (ks : List ImportType) (op : AddOp) : List ImportType :=
  if ks.any (fun k2 => specSameEntry (keyOf op) k2) then ks
  else
    match op with
    | AddOp.addDefault _ _ => ks ++ [keyOf op]
    | AddOp.addImport _ _ => ks ++ [keyOf op]
    | AddOp.addRequire _ _ false => ks ++ [keyOf op]
    | AddOp.addRequire _ _ true => keyOf op :: ks

/-- Spec-side order in which entry keys are first introduced by a sequence of
add operations, with the front-require exception: the spec's description of
the finalize order. -/
def specIntroOrder (ks : List ImportType) : List AddOp → List ImportType
  | [] => ks
  | op :: ops => specIntroOrder (specStep ks op) ops

/-- Invariant of reachable registry states: every entry's specifier list is
non-empty. -/
def SpecsNonempty (m : ModuleImports) : Prop := ∀ e ∈ m, e.2 ≠ []

/-! ### Helper lemmas -/

theorem entryPush_of_not_contains (m : ModuleImports) (k : ImportType)
    (s : ImportSpecifier) (h : containsKey m k = false) :
    entryPush m k s = m ++ [(k, [s])] := by
  induction m with
  | nil => rfl
  | cons e rest ih =>
    rw [containsKey, List.any_cons, Bool.or_eq_false_iff] at h
    simp [entryPush, h.1, ih h.2]

theorem get?_concat_length (m : List α) (e : α) :
    (m ++ [e]).get? m.length = some e := by
  induction m with
  | nil => rfl
  | cons x xs ih => simp [ih]

theorem eraseIdx_concat_length (m : List α) (e : α) :
    (m ++ [e]).eraseIdx m.length = m := by
  induction m with
  | nil => rfl
  | cons x xs ih => simp [List.eraseIdx, ih]

theorem moveIndex_concat_front (m : ModuleImports) (e : ImportType × List ImportSpecifier) :
    moveIndex (m ++ [e]) m.length 0 = some (e :: m) := by
  simp [moveIndex, get?_concat_length, eraseIdx_concat_length, insertAt,
    Nat.lt_succ_self]

theorem entryPush_length_of_contains (m : ModuleImports) (k : ImportType)
    (s : ImportSpecifier) (h : containsKey m k = true) :
    (entryPush m k s).length = m.length := by
  induction m with
  | nil => simp [containsKey] at h
  | cons e rest ih =>
    rw [containsKey, List.any_cons, Bool.or_eq_true] at h
    cases hk : eqKey k e.1 with
    | true => simp [entryPush, hk]
    | false =>
      have hrest : containsKey rest k = true := by
        rcases h with h | h
        · rw [hk] at h; cases h
        · exact h
      simp [entryPush, hk, ih hrest]

theorem mem_insertAt {y x : α} : ∀ (l : List α) (j : Nat),
    y ∈ insertAt l j x → y = x ∨ y ∈ l := by
  intro l
  induction l with
  | nil =>
    intro j h
    cases j <;> simp [insertAt] at h <;> simp [h]
  | cons z zs ih =>
    intro j h
    cases j with
    | zero =>
      simp only [insertAt, List.mem_cons] at h
      simp only [List.mem_cons]
      tauto
    | succ j' =>
      simp only [insertAt, List.mem_cons] at h
      rcases h with h | h
      · simp [h]
      · rcases ih j' h with h2 | h2
        · exact Or.inl h2
        · simp [h2]

theorem mem_eraseIdx {y : α} : ∀ (l : List α) (i : Nat),
    y ∈ l.eraseIdx i → y ∈ l := by
  intro l
  induction l with
  | nil => intro i h; simp [List.eraseIdx] at h
  | cons z zs ih =>
    intro i h
    cases i with
    | zero => simp [List.eraseIdx] at h; simp [h]
    | succ i' =>
      simp only [List.eraseIdx, List.mem_cons] at h
      rcases h with h | h
      · simp [h]
      · simp [ih i' h]

theorem mem_of_get? {y : α} : ∀ (l : List α) (i : Nat), l.get? i = some y → y ∈ l := by
  intro l
  induction l with
  | nil => intro i h; cases h
  | cons z zs ih =>
    intro i h
    cases i with
    | zero => cases h; simp
    | succ i' => simp [ih i' h]

theorem inv_entryOrInsert {m : ModuleImports} {k : ImportType}
    {v : List ImportSpecifier} (h : SpecsNonempty m) (hv : v ≠ []) :
    SpecsNonempty (entryOrInsert m k v) := by
  induction m with
  | nil => intro e he; simp [entryOrInsert] at he; simp [he, hv]
  | cons z zs ih =>
    have hz := h z (by simp)
    have hzs : SpecsNonempty zs := fun e he => h e (by simp [he])
    intro e he
    rw [entryOrInsert] at he
    by_cases hk : eqKey k z.1 = true
    · rw [if_pos hk] at he
      exact h e he
    · rw [if_neg hk] at he
      rcases List.mem_cons.mp he with h1 | h1
      · simpa [h1] using hz
      · exact ih hzs e h1

theorem inv_entryPush {m : ModuleImports} {k : ImportType}
    {s : ImportSpecifier} (h : SpecsNonempty m) : SpecsNonempty (entryPush m k s) := by
  induction m with
  | nil => intro e he; simp [entryPush] at he; simp [he]
  | cons z zs ih =>
    have hz := h z (by simp)
    have hzs : SpecsNonempty zs := fun e he => h e (by simp [he])
    intro e he
    rw [entryPush] at he
    by_cases hk : eqKey k z.1 = true
    · rw [if_pos hk] at he
      rcases List.mem_cons.mp he with h1 | h1
      · simp [h1]
      · exact hzs e h1
    · rw [if_neg hk] at he
      rcases List.mem_cons.mp he with h1 | h1
      · simpa [h1] using hz
      · exact ih hzs e h1

theorem inv_moveIndex {m m' : ModuleImports} {i j : Nat} (h : SpecsNonempty m)
    (hm : moveIndex m i j = some m') : SpecsNonempty m' := by
  rw [moveIndex] at hm
  split at hm
  · cases hg : m.get? i with
    | none => rw [hg] at hm; cases hm
    | some e =>
      rw [hg] at hm
      cases hm
      intro x hx
      rcases mem_insertAt _ _ hx with h1 | h1
      · exact h1 ▸ h e (mem_of_get? m i hg)
      · exact h x (mem_eraseIdx m i h1)
  · cases hm

theorem inv_applyOp {m m' : ModuleImports} {op : AddOp} (h : SpecsNonempty m)
    (hop : applyOp m op = some m') : SpecsNonempty m' := by
  cases op with
  | addDefault s sp =>
    cases hop
    exact inv_entryOrInsert h (by simp)
  | addImport s sp =>
    cases hop
    exact inv_entryPush h
  | addRequire s sp f =>
    cases f with
    | false =>
      have hop2 : some (entryPush m ⟨ImportKind.Require, s⟩ sp) = some m' := by
        simpa [applyOp, add_require] using hop
      cases hop2
      exact inv_entryPush h
    | true =>
      have hop2 : moveIndex (entryPush m ⟨ImportKind.Require, s⟩ sp) m.length 0
          = some m' := by
        simpa [applyOp, add_require] using hop
      exact inv_moveIndex (inv_entryPush h) hop2

theorem inv_runOps : ∀ (ops : List AddOp) (m m' : ModuleImports),
    SpecsNonempty m → runOps m ops = some m' → SpecsNonempty m' := by
  intro ops
  induction ops with
  | nil => intro m m' h hr; cases hr; exact h
  | cons op rest ih =>
    intro m m' h hr
    rw [runOps] at hr
    cases hop : applyOp m op with
    | none => rw [hop] at hr; cases hr
    | some m2 =>
      rw [hop] at hr
      exact ih m2 m' (inv_applyOp h hop) hr

theorem synthesize_isSome {e : ImportType × List ImportSpecifier}
    (h : e.2 ≠ []) : (synthesize e).isSome := by
  rcases e with ⟨k, specs⟩
  cases hk : k.kind <;> cases specs <;>
    simp_all [synthesize, get_require]

theorem synthAll_of_inv {m : ModuleImports} (h : SpecsNonempty m) :
    ∃ ss, synthAll m = some ss ∧ ss.length = m.length := by
  induction m with
  | nil => exact ⟨[], rfl, rfl⟩
  | cons e rest ih =>
    have he := h e (by simp)
    have hrest : SpecsNonempty rest := fun x hx => h x (by simp [hx])
    rcases ih hrest with ⟨ss, hss, hlen⟩
    rcases Option.isSome_iff_exists.mp (synthesize_isSome he) with ⟨s, hs⟩
    exact ⟨s :: ss, by simp [synthAll, hs, hss], by simp [hlen]⟩

theorem entryOrInsert_get? (m : ModuleImports) (k : ImportType)
    (v : List ImportSpecifier) (j : Nat) (hj : j < m.length) :
    (entryOrInsert m k v).get? j = m.get? j := by
  induction m generalizing j with
  | nil => cases hj
  | cons e rest ih =>
    rw [entryOrInsert]
    by_cases hk : eqKey k e.1 = true
    · rw [if_pos hk]
    · rw [if_neg hk]
      cases j with
      | zero => rfl
      | succ j' => exact ih j' (Nat.lt_of_succ_lt_succ hj)

theorem entryPush_get?_fst (m : ModuleImports) (k : ImportType)
    (s : ImportSpecifier) (j : Nat) (hj : j < m.length) :
    ((entryPush m k s).get? j).map Prod.fst = (m.get? j).map Prod.fst := by
  induction m generalizing j with
  | nil => cases hj
  | cons e rest ih =>
    rw [entryPush]
    by_cases hk : eqKey k e.1 = true
    · rw [if_pos hk]
      cases j with
      | zero => rfl
      | succ j' => rfl
    · rw [if_neg hk]
      cases j with
      | zero => rfl
      | succ j' => exact ih j' (Nat.lt_of_succ_lt_succ hj)

theorem entryPush_get?_of_ne (m : ModuleImports) (k : ImportType)
    (s : ImportSpecifier) (j : Nat) (hj : j < m.length)
    (hne : some j ≠ firstMatch m k) :
    (entryPush m k s).get? j = m.get? j := by
  induction m generalizing j with
  | nil => cases hj
  | cons e rest ih =>
    rw [entryPush]
    by_cases hk : eqKey k e.1 = true
    · rw [if_pos hk]
      cases j with
      | zero =>
        rw [firstMatch, if_pos hk] at hne
        exact absurd rfl hne
      | succ j' => rfl
    · rw [if_neg hk]
      cases j with
      | zero => rfl
      | succ j' =>
        rw [firstMatch, if_neg hk] at hne
        refine ih j' (Nat.lt_of_succ_lt_succ hj) ?_
        intro hc
        exact hne (by rw [← hc]; rfl)


theorem specSameEntry_eq (a b : ImportType) : specSameEntry a b = eqKey a b := by
  unfold specSameEntry eqKey
  by_cases h : a.kind = ImportKind.ImportDefault
  · simp [h]
  · by_cases h2 : a.kind = b.kind ∧ a.source = b.source <;> simp [h, h2]

theorem eqKey_default (s : String) (b : ImportType) :
    eqKey ⟨ImportKind.ImportDefault, s⟩ b = false := rfl

theorem containsKey_default (m : ModuleImports) (s : String) :
    containsKey m ⟨ImportKind.ImportDefault, s⟩ = false := by
  induction m with
  | nil => rfl
  | cons e rest ih =>
    rw [containsKey, List.any_cons, eqKey_default, Bool.false_or]
    exact ih

theorem any_map_fst (m : ModuleImports) (k : ImportType) :
    (m.map Prod.fst).any (fun k2 => eqKey k k2) = containsKey m k := by
  induction m with
  | nil => rfl
  | cons e rest ih =>
    rw [List.map_cons, List.any_cons, containsKey, List.any_cons, ih]
    rfl

theorem map_fst_entryOrInsert (m : ModuleImports) (k : ImportType)
    (v : List ImportSpecifier) :
    (entryOrInsert m k v).map Prod.fst =
      if containsKey m k then m.map Prod.fst else m.map Prod.fst ++ [k] := by
  induction m with
  | nil => rfl
  | cons e rest ih =>
    rw [entryOrInsert]
    by_cases hk : eqKey k e.1 = true
    · have hc : containsKey (e :: rest) k = true := by
        rw [containsKey, List.any_cons, hk, Bool.true_or]
      simp [hk, hc]
    · have hkf : eqKey k e.1 = false := by
        cases hek : eqKey k e.1
        · rfl
        · exact absurd hek hk
      have hc : containsKey (e :: rest) k = containsKey rest k := by
        rw [containsKey, List.any_cons, hkf, Bool.false_or]
        rfl
      rw [if_neg hk, List.map_cons, ih, hc]
      by_cases hr : containsKey rest k = true
      · simp [hr]
      · simp [hr]

theorem map_fst_entryPush (m : ModuleImports) (k : ImportType)
    (s : ImportSpecifier) :
    (entryPush m k s).map Prod.fst =
      if containsKey m k then m.map Prod.fst else m.map Prod.fst ++ [k] := by
  induction m with
  | nil => rfl
  | cons e rest ih =>
    rw [entryPush]
    by_cases hk : eqKey k e.1 = true
    · have hc : containsKey (e :: rest) k = true := by
        rw [containsKey, List.any_cons, hk, Bool.true_or]
      simp [hk, hc]
    · have hkf : eqKey k e.1 = false := by
        cases hek : eqKey k e.1
        · rfl
        · exact absurd hek hk
      have hc : containsKey (e :: rest) k = containsKey rest k := by
        rw [containsKey, List.any_cons, hkf, Bool.false_or]
        rfl
      rw [if_neg hk, List.map_cons, ih, hc]
      by_cases hr : containsKey rest k = true
      · simp [hr]
      · simp [hr]

theorem specStep_cond (m : ModuleImports) (op : AddOp) :
    ((m.map Prod.fst).any fun k2 => specSameEntry (keyOf op) k2)
      = containsKey m (keyOf op) := by
  have he : (fun k2 => specSameEntry (keyOf op) k2)
      = (fun k2 => eqKey (keyOf op) k2) := by
    funext k2
    exact specSameEntry_eq (keyOf op) k2
  rw [he, any_map_fst]

theorem map_fst_applyOp {m m2 : ModuleImports} {op : AddOp}
    (h : applyOp m op = some m2) :
    m2.map Prod.fst = specStep (m.map Prod.fst) op := by
  cases op with
  | addDefault s sp =>
    cases h
    rw [specStep, specStep_cond]
    have hc := containsKey_default m s
    rw [add_default, map_fst_entryOrInsert]
    simp [keyOf, hc]
  | addImport s sp =>
    cases h
    rw [specStep, specStep_cond]
    rw [add_import, map_fst_entryPush]
    by_cases hr : containsKey m ⟨ImportKind.Import, s⟩ = true
    · simp [keyOf, hr]
    · simp [keyOf, hr]
  | addRequire s sp f =>
    cases f with
    | false =>
      have h2 : some (entryPush m ⟨ImportKind.Require, s⟩ sp) = some m2 := by
        simpa [applyOp, add_require] using h
      cases h2
      rw [specStep, specStep_cond]
      rw [map_fst_entryPush]
      by_cases hr : containsKey m ⟨ImportKind.Require, s⟩ = true
      · simp [keyOf, hr]
      · simp [keyOf, hr]
    | true =>
      by_cases hr : containsKey m ⟨ImportKind.Require, s⟩ = true
      · have hlen := entryPush_length_of_contains m ⟨ImportKind.Require, s⟩ sp hr
        have hnone : add_require m s sp true = none := by
          simp [add_require, moveIndex, hlen]
        rw [applyOp, hnone] at h
        cases h
      · have hp := entryPush_of_not_contains m ⟨ImportKind.Require, s⟩ sp
          (by cases hc : containsKey m ⟨ImportKind.Require, s⟩
              · rfl
              · exact absurd hc hr)
        have h2 : some ((⟨ImportKind.Require, s⟩, [sp]) :: m) = some m2 := by
          rw [applyOp, add_require] at h
          simpa [hp, moveIndex_concat_front] using h
        cases h2
        rw [specStep, specStep_cond]
        simp [keyOf, hr]

theorem runOps_map_fst : ∀ (ops : List AddOp) (m m' : ModuleImports),
    runOps m ops = some m' →
    m'.map Prod.fst = specIntroOrder (m.map Prod.fst) ops := by
  intro ops
  induction ops with
  | nil =>
    intro m m' h
    cases h
    rfl
  | cons op rest ih =>
    intro m m' h
    rw [runOps] at h
    cases hop : applyOp m op with
    | none => rw [hop] at h; cases h
    | some m2 =>
      rw [hop] at h
      rw [specIntroOrder, ← map_fst_applyOp hop]
      exact ih m2 m' h

theorem synthAll_get? : ∀ (m : ModuleImports) (ss : List Stmt),
    synthAll m = some ss → ∀ j, ss.get? j = (m.get? j).bind synthesize := by
  intro m
  induction m with
  | nil =>
    intro ss h j
    cases h
    cases j <;> rfl
  | cons e rest ih =>
    intro ss h j
    rw [synthAll] at h
    cases hse : synthesize e with
    | none => rw [hse] at h; cases h
    | some s =>
      rw [hse] at h
      cases hsa : synthAll rest with
      | none => rw [hsa] at h; cases h
      | some ss2 =>
        rw [hsa] at h
        cases h
        cases j with
        | zero =>
          show some s = synthesize e
          rw [hse]
        | succ j2 => exact ih ss2 hsa j2

/-! ### Claim theorems -/

/-- C1: for any source S and specifiers a, b, calling add_import(S, a) then
add_import(S, b) then get_import_statements yields exactly one named-import
statement for S whose specifier clauses are a then b, in insertion order. -/
theorem named_import_merge (S : String) (a b : ImportSpecifier) :
    get_import_statements (add_import (add_import [] S a) S b)
      = (some [Stmt.namedImport S
          [⟨a.imported, a.localName.getD a.imported, a.symbol_id⟩,
           ⟨b.imported, b.localName.getD b.imported, b.symbol_id⟩]], []) := by
  simp [get_import_statements, add_import, entryPush, eqKey, synthAll,
    synthesize, get_named_import]

/-- C2: for any source S and specifiers a, b, calling add_default(S, a) then
add_default(S, b) then get_import_statements yields two separate default-import
statements, each with exactly one specifier: default entries never merge. -/
theorem default_import_non_merge (S : String) (a b : ImportSpecifier) :
    get_import_statements (add_default (add_default [] S a) S b)
      = (some [Stmt.defaultImport S [(a.imported, a.symbol_id)],
               Stmt.defaultImport S [(b.imported, b.symbol_id)]], []) := by
  simp [get_import_statements, add_default, entryOrInsert, eqKey, synthAll,
    synthesize, get_default_import]

/-- C3 counterexample: on a registry that already holds a Require entry for
source "mod", add_require("mod", b, front := true) does not succeed: the code
captures the map length before the insertion and then calls
move_index(len, 0), which is out of bounds (a panic, modelled as none) because
merging into the existing entry did not grow the map. -/
theorem add_require_front_existing_cex :
    add_require [(⟨ImportKind.Require, "mod"⟩, [⟨"a", none, 0⟩])] "mod"
      ⟨"b", none, 1⟩ true = none := by decide

/-- C3 (amended): whenever a Require entry for source S already exists,
add_require(S, b, front := true) panics (move_index is called with the stale
pre-insertion length, which is out of bounds); the relocation to index 0 only
happens when the Require entry is newly created. -/
theorem add_require_front_existing_panics (m : ModuleImports) (S : String)
    (sp : ImportSpecifier) (h : containsKey m ⟨ImportKind.Require, S⟩ = true) :
    add_require m S sp true = none := by
  have hlen := entryPush_length_of_contains m ⟨ImportKind.Require, S⟩ sp h
  simp [add_require, moveIndex, hlen]

/-- C3 witness for the amended theorem, at a concrete one-entry registry. -/
theorem add_require_front_existing_panics_witness :
    containsKey [(⟨ImportKind.Require, "mod"⟩, [⟨"a", none, 0⟩])]
        ⟨ImportKind.Require, "mod"⟩ = true ∧
      add_require [(⟨ImportKind.Require, "mod"⟩, [⟨"a", none, 0⟩])] "mod"
        ⟨"c", none, 2⟩ true = none :=
  ⟨by decide,
    add_require_front_existing_panics
      [(⟨ImportKind.Require, "mod"⟩, [⟨"a", none, 0⟩])] "mod" ⟨"c", none, 2⟩
      (by decide)⟩

/-- C4: add_require(S, a, false) then add_require(S, b, false) accumulates
both specifiers under one Require entry, and get_import_statements then yields
exactly one require declaration bound to a's name and identity only; b is
absent from the output. -/
theorem require_collapse (S : String) (a b : ImportSpecifier) :
    (add_require [] S a false).bind (fun m => add_require m S b false)
        = some [(⟨ImportKind.Require, S⟩, [a, b])] ∧
      (get_import_statements [(⟨ImportKind.Require, S⟩, [a, b])]).1
        = some [Stmt.requireVarDecl a.imported a.symbol_id S] := by
  constructor
  · simp [add_require, entryPush, eqKey]
  · simp [get_import_statements, synthAll, synthesize, get_require]

/-- C5: for every completed sequence of add operations, the statements
returned by get_import_statements follow exactly the order in which entry
keys were first introduced, independent of mechanism, with the sole exception
that a front require introduces its new key at index 0 ahead of all earlier
entries (specIntroOrder, transcribed from the spec): the drained entry keys
equal specIntroOrder [] ops, and the statement at every index j is the one
synthesized from the entry at that same index. -/
theorem statement_order_matches_intro_order (ops : List AddOp)
    (m : ModuleImports) (h : runOps [] ops = some m) :
    m.map Prod.fst = specIntroOrder [] ops ∧
      ∃ stmts, (get_import_statements m).1 = some stmts ∧
        stmts.length = m.length ∧
        ∀ j, stmts.get? j = (m.get? j).bind synthesize := by
  have horder := runOps_map_fst ops [] m h
  have hinv : SpecsNonempty m :=
    inv_runOps ops [] m (fun e he => absurd he (List.not_mem_nil e)) h
  rcases synthAll_of_inv hinv with ⟨ss, hss, hlen⟩
  exact ⟨horder, ss, hss, hlen, synthAll_get? m ss hss⟩

/-- C5 witness: a named import for "x", a default for "y", then a front
require for new source "z": the drained keys come out [Require z, Import x,
Default y] -- Z moved to index 0, the rest in first-introduction order. -/
theorem statement_order_matches_intro_order_witness :
    runOps [] [AddOp.addImport "x" ⟨"a", none, 0⟩,
        AddOp.addDefault "y" ⟨"b", none, 1⟩,
        AddOp.addRequire "z" ⟨"c", none, 2⟩ true]
        = some [(⟨ImportKind.Require, "z"⟩, [⟨"c", none, 2⟩]),
                (⟨ImportKind.Import, "x"⟩, [⟨"a", none, 0⟩]),
                (⟨ImportKind.ImportDefault, "y"⟩, [⟨"b", none, 1⟩])] ∧
      ([(⟨ImportKind.Require, "z"⟩, [⟨"c", none, 2⟩]),
        (⟨ImportKind.Import, "x"⟩, [⟨"a", none, 0⟩]),
        (⟨ImportKind.ImportDefault, "y"⟩, [⟨"b", none, 1⟩])] :
          ModuleImports).map Prod.fst
        = specIntroOrder [] [AddOp.addImport "x" ⟨"a", none, 0⟩,
            AddOp.addDefault "y" ⟨"b", none, 1⟩,
            AddOp.addRequire "z" ⟨"c", none, 2⟩ true] :=
  ⟨by decide,
    (statement_order_matches_intro_order
      [AddOp.addImport "x" ⟨"a", none, 0⟩,
        AddOp.addDefault "y" ⟨"b", none, 1⟩,
        AddOp.addRequire "z" ⟨"c", none, 2⟩ true]
      [(⟨ImportKind.Require, "z"⟩, [⟨"c", none, 2⟩]),
        (⟨ImportKind.Import, "x"⟩, [⟨"a", none, 0⟩]),
        (⟨ImportKind.ImportDefault, "y"⟩, [⟨"b", none, 1⟩])] (by decide)).1⟩

/-- C6: get_import_statements is a destructive one-shot drain: on any
non-empty registry reached by add operations, the first call returns a
non-empty statement sequence and leaves the registry empty, and a second call
on the drained registry returns the empty sequence. -/
theorem drain_one_shot (ops : List AddOp) (m : ModuleImports)
    (h : runOps [] ops = some m) (hne : m ≠ []) :
    (∃ stmts, (get_import_statements m).1 = some stmts ∧ stmts ≠ []) ∧
      (get_import_statements m).2 = [] ∧
      (get_import_statements (get_import_statements m).2).1 = some [] := by
  have hinv : SpecsNonempty m :=
    inv_runOps ops [] m (fun e he => absurd he (List.not_mem_nil e)) h
  rcases synthAll_of_inv hinv with ⟨ss, hss, hlen⟩
  refine ⟨⟨ss, hss, ?_⟩, rfl, rfl⟩
  intro hnil
  rw [hnil] at hlen
  exact hne (List.eq_nil_of_length_eq_zero hlen.symm)

/-- C6 witness: one named-import add, then two drains. -/
theorem drain_one_shot_witness :
    runOps [] [AddOp.addImport "s" ⟨"a", none, 0⟩]
        = some [(⟨ImportKind.Import, "s"⟩, [⟨"a", none, 0⟩])] ∧
      ((∃ stmts,
          (get_import_statements [(⟨ImportKind.Import, "s"⟩, [⟨"a", none, 0⟩])]).1
              = some stmts ∧ stmts ≠ []) ∧
        (get_import_statements [(⟨ImportKind.Import, "s"⟩, [⟨"a", none, 0⟩])]).2
            = [] ∧
        (get_import_statements
            (get_import_statements
              [(⟨ImportKind.Import, "s"⟩, [⟨"a", none, 0⟩])]).2).1 = some []) :=
  ⟨by decide,
    drain_one_shot [AddOp.addImport "s" ⟨"a", none, 0⟩]
      [(⟨ImportKind.Import, "s"⟩, [⟨"a", none, 0⟩])] (by decide) (by decide)⟩

/-- C7 counterexample: for the specifier (imported "foo", local alias "bar"),
the require synthesizer declares the variable "foo" — the imported name — not
the present local alias "bar" that the claim requires. -/
theorem require_uses_imported_not_local_cex :
    get_require "mod" [⟨"foo", some "bar", 1⟩]
        = some (Stmt.requireVarDecl "foo" 1 "mod") ∧
      Stmt.requireVarDecl "foo" 1 "mod" ≠ Stmt.requireVarDecl "bar" 1 "mod" := by
  decide

/-- C7 (amended): the require synthesizer always declares the first
specifier's imported name, bound to its identity; the local alias is ignored
(as the source's own comment on the local field notes). -/
theorem require_binding_is_imported (S : String) (n : ImportSpecifier)
    (rest : List ImportSpecifier) :
    get_require S (n :: rest)
      = some (Stmt.requireVarDecl n.imported n.symbol_id S) := rfl

/-- C8: after every sequence of add operations, every registry entry has a
non-empty specifier list, and therefore synthesizing all entries (in
particular the require path's extraction of the first specifier) never hits
the empty-list panic branch. -/
theorem add_ops_specs_nonempty (ops : List AddOp) (m : ModuleImports)
    (h : runOps [] ops = some m) :
    (∀ e ∈ m, e.2 ≠ []) ∧ (synthAll m).isSome := by
  have hinv : SpecsNonempty m :=
    inv_runOps ops [] m (fun e he => absurd he (List.not_mem_nil e)) h
  rcases synthAll_of_inv hinv with ⟨ss, hss, _⟩
  exact ⟨hinv, by simp [hss]⟩

/-- C8 witness: a default add and a front require add. -/
theorem add_ops_specs_nonempty_witness :
    runOps [] [AddOp.addDefault "s" ⟨"a", none, 0⟩,
        AddOp.addRequire "t" ⟨"b", none, 1⟩ true]
        = some [(⟨ImportKind.Require, "t"⟩, [⟨"b", none, 1⟩]),
                (⟨ImportKind.ImportDefault, "s"⟩, [⟨"a", none, 0⟩])] ∧
      ((∀ e ∈ ([(⟨ImportKind.Require, "t"⟩, [⟨"b", none, 1⟩]),
                (⟨ImportKind.ImportDefault, "s"⟩, [⟨"a", none, 0⟩])] :
            ModuleImports), e.2 ≠ []) ∧
        (synthAll [(⟨ImportKind.Require, "t"⟩, [⟨"b", none, 1⟩]),
                   (⟨ImportKind.ImportDefault, "s"⟩, [⟨"a", none, 0⟩])]).isSome) :=
  ⟨by decide,
    add_ops_specs_nonempty
      [AddOp.addDefault "s" ⟨"a", none, 0⟩,
        AddOp.addRequire "t" ⟨"b", none, 1⟩ true]
      [(⟨ImportKind.Require, "t"⟩, [⟨"b", none, 1⟩]),
        (⟨ImportKind.ImportDefault, "s"⟩, [⟨"a", none, 0⟩])] (by decide)⟩

/-- C9: any add after a drain starts from a fresh empty registry: after
get_import_statements on any state, add_import(S, a) yields the single-entry
registry, and draining it yields exactly the one statement for that entry. -/
theorem fresh_after_drain (m : ModuleImports) (S : String) (a : ImportSpecifier) :
    add_import (get_import_statements m).2 S a = [(⟨ImportKind.Import, S⟩, [a])] ∧
      (get_import_statements (add_import (get_import_statements m).2 S a)).1
        = some [Stmt.namedImport S
            [⟨a.imported, a.localName.getD a.imported, a.symbol_id⟩]] := by
  constructor
  · rfl
  · simp [get_import_statements, add_import, entryPush, synthAll, synthesize,
      get_named_import]

/-- C10: add_default, add_import, and add_require with front := false leave
every other entry untouched: all pre-existing indices keep their key, and
every index other than the (first) matched one keeps its entry unchanged. -/
theorem add_nonfront_frame (m : ModuleImports) (op : AddOp)
    (hnf : ∀ S sp, op ≠ AddOp.addRequire S sp true) (m' : ModuleImports)
    (h : applyOp m op = some m') (j : Nat) (hj : j < m.length) :
    ((m'.get? j).map Prod.fst = (m.get? j).map Prod.fst) ∧
      (some j ≠ firstMatch m (keyOf op) → m'.get? j = m.get? j) := by
  cases op with
  | addDefault s sp =>
    cases h
    have he := entryOrInsert_get? m ⟨ImportKind.ImportDefault, s⟩ [sp] j hj
    constructor
    · simp only [add_default]
      rw [he]
    · intro _
      simp only [add_default]
      rw [he]
  | addImport s sp =>
    cases h
    constructor
    · exact entryPush_get?_fst m ⟨ImportKind.Import, s⟩ sp j hj
    · intro hne
      exact entryPush_get?_of_ne m ⟨ImportKind.Import, s⟩ sp j hj hne
  | addRequire s sp f =>
    cases f with
    | true => exact absurd rfl (hnf s sp)
    | false =>
      have h2 : some (entryPush m ⟨ImportKind.Require, s⟩ sp) = some m' := by
        simpa [applyOp, add_require] using h
      cases h2
      constructor
      · exact entryPush_get?_fst m ⟨ImportKind.Require, s⟩ sp j hj
      · intro hne
        exact entryPush_get?_of_ne m ⟨ImportKind.Require, s⟩ sp j hj hne

/-- C10 witness: merging a named specifier into entry 0 of a two-entry
registry leaves entry 1 byte-for-byte unchanged. -/
theorem add_nonfront_frame_witness :
    applyOp [(⟨ImportKind.Import, "x"⟩, [⟨"a", none, 0⟩]),
             (⟨ImportKind.Import, "y"⟩, [⟨"b", none, 1⟩])]
        (AddOp.addImport "x" ⟨"c", none, 2⟩)
        = some [(⟨ImportKind.Import, "x"⟩, [⟨"a", none, 0⟩, ⟨"c", none, 2⟩]),
                (⟨ImportKind.Import, "y"⟩, [⟨"b", none, 1⟩])] ∧
      ((([(⟨ImportKind.Import, "x"⟩, [⟨"a", none, 0⟩, ⟨"c", none, 2⟩]),
          (⟨ImportKind.Import, "y"⟩, [⟨"b", none, 1⟩])] :
            ModuleImports).get? 1).map Prod.fst
          = (([(⟨ImportKind.Import, "x"⟩, [⟨"a", none, 0⟩]),
              (⟨ImportKind.Import, "y"⟩, [⟨"b", none, 1⟩])] :
                ModuleImports).get? 1).map Prod.fst ∧
        (some 1 ≠ firstMatch [(⟨ImportKind.Import, "x"⟩, [⟨"a", none, 0⟩]),
              (⟨ImportKind.Import, "y"⟩, [⟨"b", none, 1⟩])]
            (keyOf (AddOp.addImport "x" ⟨"c", none, 2⟩)) →
          ([(⟨ImportKind.Import, "x"⟩, [⟨"a", none, 0⟩, ⟨"c", none, 2⟩]),
            (⟨ImportKind.Import, "y"⟩, [⟨"b", none, 1⟩])] :
              ModuleImports).get? 1
            = ([(⟨ImportKind.Import, "x"⟩, [⟨"a", none, 0⟩]),
                (⟨ImportKind.Import, "y"⟩, [⟨"b", none, 1⟩])] :
                  ModuleImports).get? 1)) :=
  ⟨by decide,
    add_nonfront_frame
      [(⟨ImportKind.Import, "x"⟩, [⟨"a", none, 0⟩]),
        (⟨ImportKind.Import, "y"⟩, [⟨"b", none, 1⟩])]
      (AddOp.addImport "x" ⟨"c", none, 2⟩)
      (fun _ _ hc => AddOp.noConfusion hc)
      [(⟨ImportKind.Import, "x"⟩, [⟨"a", none, 0⟩, ⟨"c", none, 2⟩]),
        (⟨ImportKind.Import, "y"⟩, [⟨"b", none, 1⟩])]
      (by decide) 1 (by decide)⟩
